import Mathlib

/-!
# Verification of the pico-cli command link

A shallow embedding of `src/main.rs` (the `pico-cli` host program):
the `Command` data model, the postcard serialization of commands, the
COBS framing used by `postcard::to_allocvec_cobs`, the port-discovery
routine `find_port`, the motor ramp `wind_up_motors`, the write sequence
of the non-reset run of `main`, and a small transition system for the
duplex session (writer plus background reader).

Bytes are modelled as `Nat` values below 256; `i8` values as `Int` with
two's-complement conversion made explicit where the wire format needs it.
-/

namespace PicoCli

/-- Struct `MotorCommand` from `src/main.rs`: four `i8` drive levels.
Fields are `Int`; validity (each in `[-128, 128)`) is a separate predicate. -/
structure MotorCommand where
  a : Int
  b : Int
  c : Int
  d : Int
deriving DecidableEq, Repr

/-- Struct `LedCommand` from `src/main.rs`: one boolean status. -/
structure LedCommand where
  status : Bool
deriving DecidableEq, Repr

/-- The `Command` enum from `src/main.rs`, variants in declaration order:
`ResetToUsbBoot`, `MotorCommand`, `LedCommand`. -/
inductive Command where
  | ResetToUsbBoot : Command
  | MotorCommand (m : MotorCommand) : Command
  | LedCommand (l : LedCommand) : Command
deriving DecidableEq, Repr

/-- An `Int` is representable as an `i8`. -/
def validI8 (x : Int) : Prop := -128 ≤ x ∧ x < 128

instance (x : Int) : Decidable (validI8 x) := by
  unfold validI8; infer_instance

/-- Validity of a `Command`: `Motor` fields must be in the `i8` range.
In Rust this holds by construction of the `i8` type. -/
def validCommand : Command → Prop
  | .ResetToUsbBoot => True
  | .MotorCommand m => validI8 m.a ∧ validI8 m.b ∧ validI8 m.c ∧ validI8 m.d
  | .LedCommand _ => True

instance (c : Command) : Decidable (validCommand c) := by
  cases c <;> (unfold validCommand; infer_instance)

/-! ## Postcard serialization

`postcard` serializes an enum as a varint(u32) discriminant (the variant
index in declaration order) followed by the variant's fields in order;
`i8` is one byte in two's complement; `bool` is one byte, `0` or `1`. -/

/-- The two's-complement byte of an `i8` value (postcard's `i8` encoding). -/
def i8Byte (x : Int) : Nat := (x % 256).toNat

/-- Modelled from the spec: the decode direction is only designed, not
exercised, in `src/main.rs` (spec 4.2). The `i8` value denoted by a byte,
read in two's complement. -/
def byteToI8 (b : Nat) : Int := if b < 128 then (b : Int) else (b : Int) - 256

/-- Postcard's LEB128 varint encoding of an unsigned integer (used for
enum discriminants). -/
def varint (n : Nat) : List Nat :=
  if h : n < 128 then [n]
  else (n % 128 + 128) :: varint (n / 128)
termination_by n
decreasing_by
  exact Nat.div_lt_self (by omega) (by omega)

/-- Postcard's `bool` encoding: one byte, `0` or `1`. -/
def boolByte (b : Bool) : Nat := if b then 1 else 0

/-- The postcard serialization of a `Command`
(what `postcard::to_allocvec` produces, before COBS framing). -/
def serializeCommand : Command → List Nat
  | .ResetToUsbBoot => varint 0
  | .MotorCommand m => varint 1 ++ [i8Byte m.a, i8Byte m.b, i8Byte m.c, i8Byte m.d]
  | .LedCommand l => varint 2 ++ [boolByte l.status]

/-- Modelled from the spec: the decode direction is only designed, not
exercised, in `src/main.rs` (spec 4.2). Parse a LEB128 varint from the
front of a byte list, returning the value and the remaining bytes. -/
def parseVarint : List Nat → Option (Nat × List Nat)
  | [] => none
  | b :: rest =>
    if b < 128 then some (b, rest)
    else
      match parseVarint rest with
      | some (v, r) => some (b - 128 + 128 * v, r)
      | none => none

/-- Modelled from the spec: `decode` is designed symmetric to `encode` but
only encode is exercised in `src/main.rs` (spec 4.2). Postcard
deserialization of a `Command`: reads the varint discriminant, then the
variant's fields; fails on an unknown discriminant or a `bool` byte other
than `0`/`1` (postcard's behavior). -/
def deserializeCommand (bs : List Nat) : Option Command :=
  match parseVarint bs with
  | some (0, _) => some .ResetToUsbBoot
  | some (1, a :: b :: c :: d :: _) =>
      some (.MotorCommand ⟨byteToI8 a, byteToI8 b, byteToI8 c, byteToI8 d⟩)
  | some (2, 0 :: _) => some (.LedCommand ⟨false⟩)
  | some (2, 1 :: _) => some (.LedCommand ⟨true⟩)
  | _ => none

/-! ## COBS framing

`postcard::to_allocvec_cobs` COBS-encodes the serialized bytes and appends
the `0x00` frame delimiter. COBS: the data is cut at each zero byte; each
run of up to 254 nonzero bytes becomes a block `(len+1) :: run`; a block of
254 bytes gets code `255` and implies no zero after it. -/

/-- COBS encoding of a byte list (without the trailing delimiter). -/
def cobsEncode (data : List Nat) : List Nat :=
  if _h : 254 ≤ (data.takeWhile (· ≠ 0)).length then
    255 :: ((data.takeWhile (· ≠ 0)).take 254 ++ cobsEncode (data.drop 254))
  else
    match h2 : data.dropWhile (· ≠ 0) with
    | [] => ((data.takeWhile (· ≠ 0)).length + 1) :: data.takeWhile (· ≠ 0)
    | _ :: tail =>
      ((data.takeWhile (· ≠ 0)).length + 1) :: (data.takeWhile (· ≠ 0) ++ cobsEncode tail)
termination_by data.length
decreasing_by
  · have hle := (List.takeWhile_sublist (l := data) (p := (· ≠ 0))).length_le
    simp only [List.length_drop]
    omega
  · have hle := (List.dropWhile_sublist (l := data) (p := (· ≠ 0))).length_le
    rw [h2] at hle
    simp only [List.length_cons] at hle
    omega

/-- Modelled from the spec: the decode direction is only designed, not
exercised, in `src/main.rs` (spec 4.2). COBS decoding of a byte list (the
inverse of `cobsEncode`); fails on a zero code byte, a truncated block, or
a premature delimiter inside a block. -/
def cobsDecode (bs : List Nat) : Option (List Nat) :=
  match bs with
  | [] => none
  | n :: rest =>
    if n = 0 then none
    else
      let block := rest.take (n - 1)
      let rem := rest.drop (n - 1)
      if block.length < n - 1 then none
      else if 0 ∈ block then none
      else
        match rem with
        | [] => some block
        | _ :: _ =>
          (cobsDecode rem).map (fun tail => if n = 255 then block ++ tail else block ++ 0 :: tail)
termination_by bs.length
decreasing_by
  simp only [List.length_drop, List.length_cons]
  omega

/-- The frame produced by `postcard::to_allocvec_cobs` for a command:
COBS-encoded serialization followed by the `0x00` delimiter. -/
def encodeFrame (c : Command) : List Nat :=
  cobsEncode (serializeCommand c) ++ [0]

/-- Modelled from the spec: `decode(bytes)` inverts `encode` (spec 4.2);
only encode is exercised in `src/main.rs`. Decoding a frame: the frame
must end with the delimiter; the body is COBS-decoded and the result
postcard-deserialized. -/
def decodeFrame (bs : List Nat) : Option Command :=
  if bs.getLast? = some 0 then
    match cobsDecode bs.dropLast with
    | some payload => deserializeCommand payload
    | none => none
  else none

/-! ## The motor ramp (`wind_up_motors`)

`wind_up_motors(port, drive)` sends `Motor{i*drive, i*drive, i*drive, i*drive}`
for `i in 0..=100`, then for `i in (0..=100).rev()`. The multiplication is
`i8` multiplication; we model it with explicit two's-complement wrapping. -/

/-- Wrap an integer into the `i8` range `[-128, 128)` (two's complement). -/
def wrapI8 (z : Int) : Int := (z + 128) % 256 - 128

/-- Multiplication of `i8` values as the program performs it: the mathematical product
wrapped into the `i8` range. -/
def i8Mul (x y : Int) : Int := wrapI8 (x * y)

/-- One ramp step: the Motor command with all four fields `i * drive`. -/
def rampStep (drive : Int) (i : Nat) : Command :=
  .MotorCommand ⟨i8Mul i drive, i8Mul i drive, i8Mul i drive, i8Mul i drive⟩

/-- The sequence of commands written by `wind_up_motors(port, drive)`:
`i = 0..=100` ascending, then `i = 100..=0` descending. -/
def windUpMotors (drive : Int) : List Command :=
  (List.range 101).map (rampStep drive) ++ ((List.range 101).reverse.map (rampStep drive))

/-- Negate every field of a command (identity on non-Motor commands). -/
def negCommand : Command → Command
  | .MotorCommand m => .MotorCommand ⟨-m.a, -m.b, -m.c, -m.d⟩
  | c => c

/-- Is a command a Motor command? -/
def isMotor : Command → Bool
  | .MotorCommand _ => true
  | _ => false

/-- The drive level of a Motor command (field `a`); `0` otherwise. -/
def motorLevel : Command → Int
  | .MotorCommand m => m.a
  | _ => 0

/-! ## Port discovery (`find_port`, `list_ports` data) -/

/-- Struct `serialport::UsbPortInfo`: the USB metadata of a discovered port. -/
structure UsbPortInfo where
  vid : Nat
  pid : Nat
  serial_number : Option String
  manufacturer : Option String
  product : Option String
  usbInterface : Option Nat

/-- Enum `serialport::SerialPortType`: the class of a discovered port. -/
inductive SerialPortType where
  | UsbPort (info : UsbPortInfo)
  | BluetoothPort
  | PciPort
  | Unknown

/-- Struct `serialport::SerialPortInfo`: one discovered port descriptor. -/
structure SerialPortInfo where
  port_name : String
  port_type : SerialPortType

/-- ASCII-lowercase a character (Rust `u8::to_ascii_lowercase`, lifted to
the characters of a string). -/
def asciiLower (ch : Char) : Char :=
  if 'A' ≤ ch ∧ ch ≤ 'Z' then Char.ofNat (ch.toNat + 32) else ch

/-- Rust `str::eq_ignore_ascii_case`: equality after ASCII-lowercasing. -/
def eqIgnoreAsciiCase (s t : String) : Bool :=
  s.data.map asciiLower = t.data.map asciiLower

/-- Does `find_port` accept this descriptor? A USB port whose serial number
(absent treated as `""`) equals `"picoplayground"` case-insensitively. -/
def portMatches (p : SerialPortInfo) : Bool :=
  match p.port_type with
  | .UsbPort info => eqIgnoreAsciiCase (info.serial_number.getD "") "picoplayground"
  | _ => false

/-- Function `find_port` from `src/main.rs`, over the list returned by
`available_ports()`: scan in order, return the first matching port's name,
else fail with "Failed to find port". -/
def find_port (ports : List SerialPortInfo) : Except String String :=
  match ports with
  | [] => .error "Failed to find port"
  | p :: rest =>
    match p.port_type with
    | .UsbPort info =>
      if eqIgnoreAsciiCase (info.serial_number.getD "") "picoplayground" then
        .ok p.port_name
      else find_port rest
    | _ => find_port rest

/-- The port-name resolution in `main`: an explicit `--port` name is used
unchanged; otherwise the port is discovered with `find_port` over the
enumerated descriptors. -/
def resolvePort (explicit : Option String) (ports : List SerialPortInfo) :
    Except String String :=
  match explicit with
  | some name => .ok name
  | none => find_port ports

/-! ## The duplex session

The writer thread and the background reader thread hold independently
cloned handles (`port.try_clone()`); the reader loop reads text, loops on
success or on a `TimedOut` error, and on any other I/O error prints it and
returns, ending only the reader. `send` (a `port.write_all` of an encoded
frame) consults only the writer handle. -/

/-- The outcome of one `read_to_string` call in the reader loop. -/
inductive ReadResult where
  | ok (text : String)
  | timedOut
  | ioError (e : String)

/-- The reader loop body from `main`: does the reader keep looping after
this read result? `Ok` and `TimedOut` continue; any other error returns. -/
def readerContinues : ReadResult → Bool
  | .ok _ => true
  | .timedOut => true
  | .ioError _ => false

/-- Session state: whether the background reader is still running, and the
frames written to the port by the writer side. -/
structure Session where
  readerAlive : Bool
  written : List (List Nat)

/-- An event acting on the session: a reader-loop iteration finishing with
some read result, or the writer sending a command. -/
inductive Event where
  | readerIter (r : ReadResult)
  | send (c : Command)

/-- Session transition. A reader iteration touches only `readerAlive`
(the reader owns a cloned handle and never writes); a send appends the
encoded frame to the written stream regardless of the reader's state. -/
def step (s : Session) : Event → Session
  | .readerIter r => { s with readerAlive := s.readerAlive && readerContinues r }
  | .send c => { s with written := s.written ++ [encodeFrame c] }

/-! ## The non-reset run of `main` -/

/-- The commands `main` writes to the port on the non-reset path, in order:
LED on, the ascending/descending ramp with drive `1`, the same with drive
`-1`, the all-zero Motor command (`MotorCommand::default()`), LED off. -/
def mainNonResetCommands : List Command :=
  [Command.LedCommand ⟨true⟩]
    ++ windUpMotors 1
    ++ windUpMotors (-1)
    ++ [Command.MotorCommand ⟨0, 0, 0, 0⟩, Command.LedCommand ⟨false⟩]

/-- The frames `main` writes on the non-reset path. -/
def mainNonResetWrites : List (List Nat) := mainNonResetCommands.map encodeFrame

/-! ## The fallible serialization interface

`postcard::to_allocvec_cobs` returns `Result<Vec<u8>, Error>`: every byte
the serializer emits goes through the output flavor's `try_push`, which for
the alloc-backed flavor never fails. We model the fallible interface by
threading each emitted byte through `tryPush`. -/

/-- Errors of `postcard` reachable from an output flavor
(the alloc flavor raises none of them). -/
inductive PostcardError where
  | SerializeBufferFull

/-- The alloc-backed flavor's byte sink: pushing to a growable vector
always succeeds. -/
def tryPush (out : List Nat) (b : Nat) : Except PostcardError (List Nat) :=
  .ok (out ++ [b])

/-- Push a list of bytes through the fallible sink in order. -/
def tryExtend (out : List Nat) : List Nat → Except PostcardError (List Nat)
  | [] => .ok out
  | b :: bs => do tryExtend (← tryPush out b) bs

/-- Function `postcard::to_allocvec_cobs` for a `Command`: the frame's bytes pushed
through the fallible alloc sink, yielding `Ok(frame)` or an error. -/
def to_allocvec_cobs (c : Command) : Except PostcardError (List Nat) :=
  tryExtend [] (encodeFrame c)

end PicoCli

/-! # Theorems -/

namespace PicoCli

/-- On data with no zero byte (and fewer than 254 bytes), COBS encoding is a
single block: the length-plus-one code byte followed by the data. -/
theorem cobsEncode_of_no_zero (data : List Nat) (hz : ∀ b ∈ data, b ≠ 0)
    (hlen : data.length < 254) :
    cobsEncode data = (data.length + 1) :: data := by
  have htake : data.takeWhile (· ≠ 0) = data :=
    List.takeWhile_eq_self_iff.mpr (by simpa using hz)
  have hdrop : data.dropWhile (· ≠ 0) = [] :=
    List.dropWhile_eq_nil_iff.mpr (by simpa using hz)
  rw [cobsEncode.eq_def, htake, hdrop]
  simp [Nat.lt_irrefl, hlen]

/-- On data beginning with a zero-free run `pre` (shorter than 254 bytes)
followed by a zero, COBS encoding emits the block for `pre` and recurses. -/
theorem cobsEncode_append_zero (pre tail : List Nat) (hz : ∀ b ∈ pre, b ≠ 0)
    (hlen : pre.length < 254) :
    cobsEncode (pre ++ 0 :: tail) = (pre.length + 1) :: (pre ++ cobsEncode tail) := by
  have htake : (pre ++ 0 :: tail).takeWhile (· ≠ 0) = pre := by
    rw [List.takeWhile_append_of_pos (by simpa using hz)]
    simp
  have hdrop : (pre ++ 0 :: tail).dropWhile (· ≠ 0) = 0 :: tail := by
    rw [List.dropWhile_append_of_pos (by simpa using hz)]
    simp
  rw [cobsEncode.eq_def, htake, hdrop]
  simp [Nat.lt_irrefl, hlen]

/-- A COBS encoding is never empty: it always starts with a code byte. -/
theorem cobsEncode_ne_nil (data : List Nat) : cobsEncode data ≠ [] := by
  rw [cobsEncode.eq_def]
  split
  · simp
  · split <;> simp

/-- The delimiter byte never occurs in a COBS encoding: code bytes are
positive and data bytes come from zero-free runs. -/
theorem zero_not_mem_cobsEncode (data : List Nat) : 0 ∉ cobsEncode data := by
  induction data using cobsEncode.induct with
  | case1 data h ih =>
    rw [cobsEncode.eq_def, dif_pos h]
    intro hmem
    rcases List.mem_cons.mp hmem with h255 | hmem
    · omega
    rcases List.mem_append.mp hmem with hpre | henc
    · exact absurd (List.mem_takeWhile_imp (List.take_subset _ _ hpre)) (by simp)
    · exact ih henc
  | case2 data h h2 =>
    rw [cobsEncode.eq_def, dif_neg h, h2]
    intro hmem
    rcases List.mem_cons.mp hmem with hcode | hpre
    · omega
    · exact absurd (List.mem_takeWhile_imp hpre) (by simp)
  | case3 data h hd tail h2 ih =>
    rw [cobsEncode.eq_def, dif_neg h, h2]
    intro hmem
    rcases List.mem_cons.mp hmem with hcode | hmem
    · omega
    rcases List.mem_append.mp hmem with hpre | henc
    · exact absurd (List.mem_takeWhile_imp hpre) (by simp)
    · exact ih henc

/-- Decoding a single final COBS block recovers its zero-free data. -/
theorem cobsDecode_single_block (data : List Nat) (hz : ∀ b ∈ data, b ≠ 0) :
    cobsDecode ((data.length + 1) :: data) = some data := by
  have h0 : ¬ (0 ∈ data) := fun hm => hz 0 hm rfl
  rw [cobsDecode.eq_def]
  simp [h0]

/-- Decoding a non-final COBS block: the block's zero-free data, an implied
zero, then whatever the rest decodes to. -/
theorem cobsDecode_block (pre rest : List Nat) (hz : ∀ b ∈ pre, b ≠ 0)
    (hlen : pre.length < 254) (hne : rest ≠ []) :
    cobsDecode ((pre.length + 1) :: (pre ++ rest)) =
      (cobsDecode rest).map (fun tail => pre ++ 0 :: tail) := by
  obtain ⟨y, ys, rfl⟩ := List.exists_cons_of_ne_nil hne
  have h0 : ¬ (0 ∈ pre) := fun hm => hz 0 hm rfl
  have h255 : pre.length + 1 ≠ 255 := by omega
  rw [cobsDecode.eq_def]
  simp only [Nat.add_sub_cancel, List.take_left, List.drop_left]
  simp [h0, h255]

/-- COBS round-trip: decoding the encoding of any data of fewer than 254
bytes recovers the data. -/
theorem cobsDecode_cobsEncode (data : List Nat) (hlen : data.length < 254) :
    cobsDecode (cobsEncode data) = some data := by
  revert hlen
  induction data using cobsEncode.induct with
  | case1 data h ih =>
    intro hlen
    exfalso
    have := (List.takeWhile_sublist (l := data) (p := (· ≠ 0))).length_le
    omega
  | case2 data h h2 =>
    intro hlen
    have hz : ∀ b ∈ data, b ≠ 0 := by
      have := List.dropWhile_eq_nil_iff.mp h2
      simpa using this
    rw [cobsEncode_of_no_zero data hz hlen]
    exact cobsDecode_single_block data hz
  | case3 data h hd tail h2 ih =>
    intro hlen
    have hdata : data.takeWhile (· ≠ 0) ++ (hd :: tail) = data := by
      rw [← h2]
      exact List.takeWhile_append_dropWhile ..
    have hhd : hd = 0 := by
      have := List.head?_dropWhile_not (fun x => decide (x ≠ 0)) data
      rw [h2] at this
      simpa using this
    subst hhd
    have hzpre : ∀ b ∈ data.takeWhile (· ≠ 0), b ≠ 0 := fun b hb => by
      simpa using List.mem_takeWhile_imp hb
    have hsum : (data.takeWhile (· ≠ 0)).length + (tail.length + 1) = data.length := by
      conv_rhs => rw [← hdata]
      rw [List.length_append, List.length_cons]
    have hpre254 : (data.takeWhile (· ≠ 0)).length < 254 := by omega
    have htail254 : tail.length < 254 := by omega
    rw [← hdata, cobsEncode_append_zero _ tail hzpre hpre254,
      cobsDecode_block _ (cobsEncode tail) hzpre hpre254 (cobsEncode_ne_nil tail),
      ih htail254]
    rfl

/-- A varint of a value below 128 is the single byte of that value. -/
theorem varint_small (n : Nat) (h : n < 128) : varint n = [n] := by
  rw [varint.eq_def, dif_pos h]

/-- Reading back the two's-complement byte of an `i8` value recovers it. -/
theorem byteToI8_i8Byte (x : Int) (h : validI8 x) : byteToI8 (i8Byte x) = x := by
  unfold validI8 at h
  unfold byteToI8 i8Byte
  split <;> omega

/-- The postcard serialization of `ResetToUsbBoot`, concretely. -/
theorem serializeCommand_reset : serializeCommand .ResetToUsbBoot = [0] := by
  unfold serializeCommand
  rw [varint_small 0 (by omega)]

/-- The postcard serialization of a Motor command, concretely. -/
theorem serializeCommand_motor (m : MotorCommand) :
    serializeCommand (.MotorCommand m)
      = [1, i8Byte m.a, i8Byte m.b, i8Byte m.c, i8Byte m.d] := by
  unfold serializeCommand
  rw [varint_small 1 (by omega)]
  rfl

/-- The postcard serialization of a LED command, concretely. -/
theorem serializeCommand_led (l : LedCommand) :
    serializeCommand (.LedCommand l) = [2, boolByte l.status] := by
  unfold serializeCommand
  rw [varint_small 2 (by omega)]
  rfl

/-- Serialized commands are at most 5 bytes long. -/
theorem serializeCommand_length (c : Command) : (serializeCommand c).length ≤ 5 := by
  cases c with
  | ResetToUsbBoot => rw [serializeCommand_reset]; simp
  | MotorCommand m => rw [serializeCommand_motor]; simp
  | LedCommand l => rw [serializeCommand_led]; simp

/-- Postcard deserialization inverts serialization on valid commands. -/
theorem deserializeCommand_serializeCommand (c : Command) (h : validCommand c) :
    deserializeCommand (serializeCommand c) = some c := by
  cases c with
  | ResetToUsbBoot =>
    rw [serializeCommand_reset]
    rfl
  | MotorCommand m =>
    obtain ⟨ha, hb, hc, hd⟩ := h
    rw [serializeCommand_motor]
    show some (Command.MotorCommand ⟨byteToI8 (i8Byte m.a), byteToI8 (i8Byte m.b),
      byteToI8 (i8Byte m.c), byteToI8 (i8Byte m.d)⟩) = some (Command.MotorCommand m)
    rw [byteToI8_i8Byte m.a ha, byteToI8_i8Byte m.b hb,
      byteToI8_i8Byte m.c hc, byteToI8_i8Byte m.d hd]
  | LedCommand l =>
    obtain ⟨st⟩ := l
    rw [serializeCommand_led]
    cases st <;> rfl

/-- Pushing bytes through the infallible alloc sink appends them all. -/
theorem tryExtend_ok (bs : List Nat) : ∀ out, tryExtend out bs = .ok (out ++ bs) := by
  induction bs with
  | nil => intro out; simp [tryExtend]
  | cons b bs ih =>
    intro out
    simp [tryExtend, tryPush, Bind.bind, Except.bind, ih]

/-- C1: for every valid `Command` value `c` (ResetToUsbBoot, Motor with four
`i8` fields, or Led with a boolean), decoding the frame produced by the
postcard+COBS encoding of `c` recovers exactly `c`:
`decodeFrame (encodeFrame c) = some c`. -/
theorem C1_frame_roundtrip (c : Command) (h : validCommand c) :
    decodeFrame (encodeFrame c) = some c := by
  unfold decodeFrame encodeFrame
  rw [List.getLast?_concat, if_pos rfl, List.dropLast_concat,
    cobsDecode_cobsEncode _ (by have := serializeCommand_length c; omega)]
  exact deserializeCommand_serializeCommand c h

/-- Witness for C1 at the spec's scenario value `Motor{a:5, b:-5, c:0, d:127}`. -/
theorem C1_frame_roundtrip_witness :
    decodeFrame (encodeFrame (Command.MotorCommand ⟨5, -5, 0, 127⟩))
      = some (Command.MotorCommand ⟨5, -5, 0, 127⟩) :=
  C1_frame_roundtrip (Command.MotorCommand ⟨5, -5, 0, 127⟩) (by decide)

/-- C2: for every valid `Command` value `c`, the delimiter byte `0x00`
occurs in `encodeFrame c` exactly once, as the final byte of the frame;
no earlier byte of the frame equals `0x00`. -/
theorem C2_delimiter_safety (c : Command) (h : validCommand c) :
    (encodeFrame c).getLast? = some 0 ∧
    (∀ b ∈ (encodeFrame c).dropLast, b ≠ 0) ∧
    (encodeFrame c).count 0 = 1 := by
  unfold encodeFrame
  refine ⟨List.getLast?_concat _, ?_, ?_⟩
  · rw [List.dropLast_concat]
    intro b hb hb0
    rw [hb0] at hb
    exact zero_not_mem_cobsEncode _ hb
  · rw [List.count_append, List.count_eq_zero.mpr (zero_not_mem_cobsEncode _)]
    rfl

/-- Witness for C2 at `Led{status:true}`. -/
theorem C2_delimiter_safety_witness :
    (encodeFrame (Command.LedCommand ⟨true⟩)).getLast? = some 0 ∧
    (∀ b ∈ (encodeFrame (Command.LedCommand ⟨true⟩)).dropLast, b ≠ 0) ∧
    (encodeFrame (Command.LedCommand ⟨true⟩)).count 0 = 1 :=
  C2_delimiter_safety (Command.LedCommand ⟨true⟩) (by decide)

/-- C3: the serialized bytes of every `Command` (before byte-stuffing) are a
1-byte variant discriminant in enumeration order (`ResetToUsbBoot`=0,
Motor=1, Led=2) followed by the variant's payload fields in declaration
order with no padding: Motor contributes the four signed 1-byte fields
`a,b,c,d` in two's complement; Led one byte that is `1` or `0`;
ResetToUsbBoot no further bytes. -/
theorem C3_serialized_layout (m : MotorCommand) (l : LedCommand) :
    serializeCommand .ResetToUsbBoot = [0] ∧
    serializeCommand (.MotorCommand m)
      = [1, i8Byte m.a, i8Byte m.b, i8Byte m.c, i8Byte m.d] ∧
    serializeCommand (.LedCommand l) = [2, if l.status then 1 else 0] :=
  ⟨serializeCommand_reset, serializeCommand_motor m, serializeCommand_led l⟩

/-- C7: encoding never fails: for every valid `Command` value, the fallible
serializer returns the frame through the `Ok` branch; the error branch of
the COBS serialization is unreachable. -/
theorem C7_encode_never_fails (c : Command) (h : validCommand c) :
    to_allocvec_cobs c = .ok (encodeFrame c) :=
  tryExtend_ok (encodeFrame c) []

/-- Witness for C7 at `ResetToUsbBoot`. -/
theorem C7_encode_never_fails_witness :
    to_allocvec_cobs Command.ResetToUsbBoot = .ok (encodeFrame Command.ResetToUsbBoot) :=
  C7_encode_never_fails Command.ResetToUsbBoot (by decide)

set_option maxRecDepth 4000 in
/-- C4: for direction `+1` the ramp emits exactly 202 Motor commands —
101 with magnitude ascending `0..100` then 101 descending `100..0` — with
all four fields equal within each command; consecutive magnitudes differ
by exactly 1 except at the single boundary (index 100), where 100 repeats;
for direction `-1` the emitted sequence is the same sequence with every
field negated. -/
theorem C4_ramp_shape :
    (windUpMotors 1).length = 202 ∧
    windUpMotors 1 = (List.range 101 ++ (List.range 101).reverse).map
      (fun i => Command.MotorCommand ⟨i, i, i, i⟩) ∧
    (((windUpMotors 1).map motorLevel).zip ((windUpMotors 1).map motorLevel).tail).all
      (fun p => p.1 == p.2 || (p.2 - p.1).natAbs == 1) = true ∧
    (((windUpMotors 1).map motorLevel).zip ((windUpMotors 1).map motorLevel).tail).countP
      (fun p => p.1 == p.2) = 1 ∧
    (((windUpMotors 1).map motorLevel).zip ((windUpMotors 1).map motorLevel).tail)[100]?
      = some (100, 100) ∧
    windUpMotors (-1) = (windUpMotors 1).map negCommand := by
  decide

/-- Wrapping is the identity on values already in the `i8` range. -/
theorem wrapI8_eq_self (z : Int) (h1 : -128 ≤ z) (h2 : z < 128) : wrapI8 z = z := by
  unfold wrapI8
  omega

/-- C6: with ramp direction `+1` or `-1`, every command emitted by the ramp
is a Motor command whose four fields all equal `i * direction` for some
`i ≤ 100`; the value lies within `-100..100` (hence within the `i8` range
`-128..127`), and the `i8` multiplication `i * direction` never wraps. -/
theorem C6_ramp_range_safe (d : Int) (hd : d = 1 ∨ d = -1) (c : Command)
    (hc : c ∈ windUpMotors d) :
    ∃ i : Nat, i ≤ 100 ∧
      c = Command.MotorCommand ⟨i * d, i * d, i * d, i * d⟩ ∧
      -100 ≤ (i : Int) * d ∧ (i : Int) * d ≤ 100 ∧
      -128 ≤ (i : Int) * d ∧ (i : Int) * d < 128 ∧
      i8Mul i d = i * d := by
  unfold windUpMotors at hc
  have hmem : ∃ i, i < 101 ∧ rampStep d i = c := by
    rcases List.mem_append.mp hc with hm | hm
    · obtain ⟨i, hi, hstep⟩ := List.mem_map.mp hm
      exact ⟨i, List.mem_range.mp hi, hstep⟩
    · obtain ⟨i, hi, hstep⟩ := List.mem_map.mp hm
      exact ⟨i, List.mem_range.mp (List.mem_reverse.mp hi), hstep⟩
  obtain ⟨i, hi, hstep⟩ := hmem
  have hb : -100 ≤ (i : Int) * d ∧ (i : Int) * d ≤ 100 := by
    rcases hd with rfl | rfl
    · rw [mul_one]; omega
    · rw [mul_neg_one]; omega
  have hmul : i8Mul i d = (i : Int) * d := by
    unfold i8Mul
    exact wrapI8_eq_self _ (by omega) (by omega)
  refine ⟨i, by omega, ?_, hb.1, hb.2, by omega, by omega, hmul⟩
  rw [← hstep]
  unfold rampStep
  rw [hmul]

/-- Witness for C6: direction `+1`, the peak command `Motor{100,100,100,100}`. -/
theorem C6_ramp_range_safe_witness :
    ∃ i : Nat, i ≤ 100 ∧
      Command.MotorCommand ⟨100, 100, 100, 100⟩
        = Command.MotorCommand ⟨i * 1, i * 1, i * 1, i * 1⟩ ∧
      -100 ≤ (i : Int) * 1 ∧ (i : Int) * 1 ≤ 100 ∧
      -128 ≤ (i : Int) * 1 ∧ (i : Int) * 1 < 128 ∧
      i8Mul i 1 = i * 1 :=
  C6_ramp_range_safe 1 (Or.inl rfl) (Command.MotorCommand ⟨100, 100, 100, 100⟩)
    (by decide)

/-- Lemma: `find_port` is first-match selection over the enumeration order. -/
theorem find_port_eq_first_match (ports : List SerialPortInfo) :
    find_port ports = match ports.find? portMatches with
      | some p => .ok p.port_name
      | none => .error "Failed to find port" := by
  induction ports with
  | nil => rfl
  | cons p rest ih =>
    unfold find_port
    cases hpt : p.port_type with
    | UsbPort info =>
      have hpm : portMatches p = eqIgnoreAsciiCase (info.serial_number.getD "")
          "picoplayground" := by
        unfold portMatches
        rw [hpt]
      rw [List.find?_cons, hpm]
      by_cases hm : eqIgnoreAsciiCase (info.serial_number.getD "") "picoplayground" = true
      · simp [hm]
      · simp only [Bool.not_eq_true] at hm
        simp [hm, ih]
    | BluetoothPort =>
      have hpm : portMatches p = false := by
        unfold portMatches
        rw [hpt]
      rw [List.find?_cons, hpm, ih]
    | PciPort =>
      have hpm : portMatches p = false := by
        unfold portMatches
        rw [hpt]
      rw [List.find?_cons, hpm, ih]
    | Unknown =>
      have hpm : portMatches p = false := by
        unfold portMatches
        rw [hpt]
      rw [List.find?_cons, hpm, ih]

/-- C5: when no explicit port name is given, port resolution returns the
port name of the first descriptor in enumeration order that is a USB port
whose serial-number string equals `"picoplayground"` case-insensitively,
and fails with the not-found error when no descriptor matches. -/
theorem C5_resolve_first_match (ports : List SerialPortInfo) :
    resolvePort none ports = match ports.find? portMatches with
      | some p => .ok p.port_name
      | none => .error "Failed to find port" :=
  find_port_eq_first_match ports

/-- C8: a non-timeout I/O error in the background reader terminates only
the reader task and never prevents a subsequent send on the writer side:
after such an error the reader is no longer alive, the writer state is
untouched, and a send still appends the encoded frame. -/
theorem C8_reader_fault_isolation (s : Session) (e : String) (c : Command) :
    readerContinues (.ioError e) = false ∧
    (step s (.readerIter (.ioError e))).written = s.written ∧
    (step s (.readerIter (.ioError e))).readerAlive = false ∧
    (step (step s (.readerIter (.ioError e))) (.send c)).written
      = s.written ++ [encodeFrame c] := by
  refine ⟨rfl, rfl, ?_, rfl⟩
  simp [step, readerContinues]

/-- C9: discovery only ever selects a USB port that reports a serial-number
string: a non-USB descriptor is never selected, and an absent USB serial
number is read as the empty string, which never matches
`"picoplayground"`, so such ports are always skipped. -/
theorem C9_usb_serial_required (ports : List SerialPortInfo) (name : String)
    (h : find_port ports = .ok name) :
    (∃ p ∈ ports, p.port_name = name ∧ ∃ info, p.port_type = .UsbPort info ∧
      ∃ s, info.serial_number = some s ∧ eqIgnoreAsciiCase s "picoplayground" = true) ∧
    eqIgnoreAsciiCase ((none : Option String).getD "") "picoplayground" = false := by
  refine ⟨?_, by decide⟩
  rw [find_port_eq_first_match] at h
  cases hf : ports.find? portMatches with
  | none =>
    rw [hf] at h
    exact absurd h (by simp)
  | some p =>
    rw [hf] at h
    have hname : p.port_name = name := by simpa using h
    have hmem : p ∈ ports := List.mem_of_find?_eq_some hf
    have hmatch : portMatches p = true := List.find?_some hf
    refine ⟨p, hmem, hname, ?_⟩
    cases hpt : p.port_type with
    | UsbPort info =>
      have hpm : portMatches p = eqIgnoreAsciiCase (info.serial_number.getD "")
          "picoplayground" := by
        unfold portMatches
        rw [hpt]
      rw [hpm] at hmatch
      refine ⟨info, rfl, ?_⟩
      cases hs : info.serial_number with
      | none =>
        rw [hs] at hmatch
        exact absurd hmatch (by decide)
      | some s =>
        rw [hs] at hmatch
        exact ⟨s, rfl, hmatch⟩
    | BluetoothPort =>
      have hpm : portMatches p = false := by
        unfold portMatches
        rw [hpt]
      rw [hpm] at hmatch
      exact absurd hmatch (by simp)
    | PciPort =>
      have hpm : portMatches p = false := by
        unfold portMatches
        rw [hpt]
      rw [hpm] at hmatch
      exact absurd hmatch (by simp)
    | Unknown =>
      have hpm : portMatches p = false := by
        unfold portMatches
        rw [hpt]
      rw [hpm] at hmatch
      exact absurd hmatch (by simp)

/-- Witness for C9: a single descriptor with USB serial `"PicoPlayground"`
(case differs from the token) is selected. -/
theorem C9_usb_serial_required_witness :
    (∃ p ∈ [SerialPortInfo.mk "/dev/ttyACM0"
        (.UsbPort ⟨0x2e8a, 0x0005, some "PicoPlayground", none, none, none⟩)],
      p.port_name = "/dev/ttyACM0" ∧ ∃ info, p.port_type = .UsbPort info ∧
      ∃ s, info.serial_number = some s ∧ eqIgnoreAsciiCase s "picoplayground" = true) ∧
    eqIgnoreAsciiCase ((none : Option String).getD "") "picoplayground" = false :=
  C9_usb_serial_required
    [SerialPortInfo.mk "/dev/ttyACM0"
      (.UsbPort ⟨0x2e8a, 0x0005, some "PicoPlayground", none, none, none⟩)]
    "/dev/ttyACM0" (by rfl)

set_option maxRecDepth 8000 in
/-- C10: in a non-reset run that completes without error, the frame
sequence written to the port is the encoding of the command sequence, which
ends with the all-zero Motor command followed by `Led{status:false}`; in
particular the last Motor command ever written stops all motors. -/
theorem C10_final_writes :
    mainNonResetWrites = mainNonResetCommands.map encodeFrame ∧
    mainNonResetCommands.drop (mainNonResetCommands.length - 2)
      = [Command.MotorCommand ⟨0, 0, 0, 0⟩, Command.LedCommand ⟨false⟩] ∧
    (mainNonResetCommands.filter isMotor).getLast?
      = some (Command.MotorCommand ⟨0, 0, 0, 0⟩) := by
  refine ⟨rfl, ?_, ?_⟩ <;> decide

end PicoCli
